import Mathlib

/-
  Verification of the request-line parser in `src/micro_http/src/request.rs`.

  Bytes are modelled as `Nat`, byte slices as `List Nat`.  Rust functions that
  can panic (an out-of-bounds index or slice, `Option::unwrap`) are embedded as
  `Option`-returning functions where `none` models the panic; Rust `Result` is
  embedded as `Except`.
-/

namespace MicroHttp

/-- Modelled from the spec: the ASCII constants `CR`, `LF`, `SP` come from the
`common::ascii` module, which is outside the provided source.  They are the
standard ASCII bytes for carriage return, line feed and space. -/
def CR : Nat := 13

/-- Modelled from the spec: ASCII line feed from `common::ascii` (outside the
provided source). -/
def LF : Nat := 10

/-- Modelled from the spec: ASCII space from `common::ascii` (outside the
provided source). -/
def SP : Nat := 32

/-- Modelled from the spec: the closed `Method` enumeration of the `common`
crate (outside the provided source); only the variant `Get` exists/is valid. -/
inductive Method where
  | get
deriving DecidableEq

/-- Modelled from the spec: the canonical byte-string representation of
`Method::Get` is `"GET"` (bytes 71, 69, 84). -/
def Method.raw : Method → List Nat
  | .get => [71, 69, 84]

/-- Modelled from the spec: the closed `Version` enumeration of the `common`
crate (outside the provided source), variants `Http10` and `Http11`. -/
inductive Version where
  | http10
  | http11
deriving DecidableEq

/-- Modelled from the spec: the canonical byte-string representations
`"HTTP/1.0"` and `"HTTP/1.1"`. -/
def Version.raw : Version → List Nat
  | .http10 => [72, 84, 84, 80, 47, 49, 46, 48]
  | .http11 => [72, 84, 84, 80, 47, 49, 46, 49]

/-- Modelled from the spec: `Version::try_from` of the `common` crate (outside
the provided source) maps each canonical byte string back to its variant and
fails on anything else ("canonical-bytes mapping in both directions"). -/
def Version.tryFrom (bytes : List Nat) : Option Version :=
  if bytes = Version.raw .http10 then some .http10
  else if bytes = Version.raw .http11 then some .http11
  else none

/-- Modelled from the spec: the error taxonomy of the `common` crate (outside
the provided source); the constructors and static messages are the ones used
in `request.rs`. -/
inductive Error where
  | invalidHttpMethod (msg : String)
  | invalidUri (msg : String)
  | invalidHttpVersion (msg : String)
  | invalidRequest
deriving DecidableEq

/-- Modelled from the spec: the headers placeholder of the `headers` crate
(outside the provided source); in this core it is always the empty default. -/
structure Headers where
deriving DecidableEq

/-- Modelled from the spec: `Headers::default()`, the empty placeholder. -/
def Headers.default : Headers := {}

/-- Modelled from the spec: the `Body` type of the `common` crate (outside the
provided source); never constructed by this core. -/
structure Body where
  bytes : List Nat
deriving DecidableEq

/-- The index search performed by the `for index in 0..bytes.len()` loop of
`split`: the first index whose byte equals the separator, if any. -/
def firstIndexOf (bytes : List Nat) (separator : Nat) : Option Nat :=
  match bytes with
  | [] => none
  | b :: rest =>
    if b = separator then some 0
    else (firstIndexOf rest separator).map (fun i => i + 1)

/-- Translated from `split` in `request.rs`: splits the bytes in a pair
containing the bytes before the separator and after the separator; the
separator is not included.  When the separator does not occur the result is
`([], bytes)`. -/
def split (bytes : List Nat) (separator : Nat) : List Nat × List Nat :=
  match firstIndexOf bytes separator with
  | some index =>
    if index + 1 < bytes.length then
      (bytes.take index, bytes.drop (index + 1))
    else
      (bytes.take index, [])
  | none => ([], bytes)

/-- Translated from `pub struct Uri`: a view over the URI token bytes. -/
structure Uri where
  bytes : List Nat
deriving DecidableEq

/-- The literal `b"http://"` scheme bytes used by `Uri::get_abs_path`. -/
def httpSchemeBytes : List Nat := [104, 116, 116, 112, 58, 47, 47]

/-- Translated from `Uri::get_abs_path`.  `none` models a Rust panic: the
source reads `self.bytes[0]` in the relative-path branch, which is an
out-of-bounds index when the token is empty.  Byte 47 is ASCII `/`. -/
def Uri.get_abs_path (self : Uri) : Option (List Nat) :=
  if httpSchemeBytes.isPrefixOf self.bytes then
    if self.bytes.length = httpSchemeBytes.length then
      some []
    else
      let host := (split (self.bytes.drop httpSchemeBytes.length) 47).1
      if host.length = 0 then
        some []
      else
        some (self.bytes.drop (httpSchemeBytes.length + host.length))
  else
    match self.bytes with
    | [] => none
    | b :: _ => if b ≠ 47 then some [] else some self.bytes

/-- Translated from `struct RequestLine`. -/
structure RequestLine where
  method : Method
  uri : Uri
  http_version : Version
deriving DecidableEq

/-- Translated from `RequestLine::validate_method`. -/
def RequestLine.validate_method (method : List Nat) : Except Error Unit :=
  if method ≠ Method.raw .get then
    .error (.invalidHttpMethod ("Unsupported HTTP method."))
  else
    .ok ()

/-- UTF-8 validity of a byte sequence, as checked by `std::str::from_utf8`:
the standard table of well-formed byte sequences (RFC 3629). -/
def isValidUtf8 : List Nat → Bool
  | [] => true
  | b :: rest =>
    if b ≤ 127 then
      isValidUtf8 rest
    else if 194 ≤ b ∧ b ≤ 223 then
      match rest with
      | c1 :: rest2 => (128 ≤ c1 && c1 ≤ 191) && isValidUtf8 rest2
      | [] => false
    else if b = 224 then
      match rest with
      | c1 :: c2 :: rest2 =>
        (160 ≤ c1 && c1 ≤ 191) && (128 ≤ c2 && c2 ≤ 191) && isValidUtf8 rest2
      | _ => false
    else if (225 ≤ b ∧ b ≤ 236) ∨ b = 238 ∨ b = 239 then
      match rest with
      | c1 :: c2 :: rest2 =>
        (128 ≤ c1 && c1 ≤ 191) && (128 ≤ c2 && c2 ≤ 191) && isValidUtf8 rest2
      | _ => false
    else if b = 237 then
      match rest with
      | c1 :: c2 :: rest2 =>
        (128 ≤ c1 && c1 ≤ 159) && (128 ≤ c2 && c2 ≤ 191) && isValidUtf8 rest2
      | _ => false
    else if b = 240 then
      match rest with
      | c1 :: c2 :: c3 :: rest2 =>
        (144 ≤ c1 && c1 ≤ 191) && (128 ≤ c2 && c2 ≤ 191) &&
          (128 ≤ c3 && c3 ≤ 191) && isValidUtf8 rest2
      | _ => false
    else if 241 ≤ b ∧ b ≤ 243 then
      match rest with
      | c1 :: c2 :: c3 :: rest2 =>
        (128 ≤ c1 && c1 ≤ 191) && (128 ≤ c2 && c2 ≤ 191) &&
          (128 ≤ c3 && c3 ≤ 191) && isValidUtf8 rest2
      | _ => false
    else if b = 244 then
      match rest with
      | c1 :: c2 :: c3 :: rest2 =>
        (128 ≤ c1 && c1 ≤ 143) && (128 ≤ c2 && c2 ≤ 191) &&
          (128 ≤ c3 && c3 ≤ 191) && isValidUtf8 rest2
      | _ => false
    else
      false

/-- Translated from `RequestLine::validate_uri`: the URI token must be
non-empty and valid UTF-8. -/
def RequestLine.validate_uri (uri : List Nat) : Except Error Unit :=
  if uri.length = 0 then
    .error (.invalidUri ("Empty URI not allowed."))
  else if isValidUtf8 uri = false then
    .error (.invalidUri ("Cannot parse URI as UTF-8."))
  else
    .ok ()

/-- Translated from `RequestLine::validate_version`. -/
def RequestLine.validate_version (version : List Nat) : Except Error Unit :=
  if version ≠ Version.raw .http10 ∧ version ≠ Version.raw .http11 then
    .error (.invalidHttpVersion ("Unsupported HTTP version."))
  else
    .ok ()

/-- Translated from `RequestLine::remove_trailing_cr`: drop one trailing
carriage return when the token has more than one byte. -/
def RequestLine.remove_trailing_cr (version : List Nat) : List Nat :=
  if version.length > 1 ∧ version.getD (version.length - 1) 0 = CR then
    version.take (version.length - 1)
  else
    version

/-- Translated from `RequestLine::try_from`: split on SP for the method,
on SP for the URI, on LF for the version; validate each in order.  The outer
`none` models the panic of `Version::try_from(version).unwrap()`. -/
def RequestLine.try_from (request_line : List Nat) :
    Option (Except Error RequestLine) :=
  let (method, remaining_bytes) := split request_line SP
  match RequestLine.validate_method method with
  | .error e => some (.error e)
  | .ok () =>
    let (uri, remaining_bytes2) := split remaining_bytes SP
    match RequestLine.validate_uri uri with
    | .error e => some (.error e)
    | .ok () =>
      let (version0, _) := split remaining_bytes2 LF
      let version := RequestLine.remove_trailing_cr version0
      match RequestLine.validate_version version with
      | .error e => some (.error e)
      | .ok () =>
        match Version.tryFrom version with
        | some v => some (.ok ⟨Method.get, ⟨uri⟩, v⟩)
        | none => none

/-- Translated from `RequestLine::min_len`: method + one-byte URI + version
+ three separators. -/
def RequestLine.min_len : Nat :=
  (Method.raw .get).length + 1 + (Version.raw .http10).length + 3

/-- Translated from `pub struct Request`. -/
structure Request where
  request_line : RequestLine
  headers : Headers
  body : Option Body
deriving DecidableEq

/-- Translated from `Request::try_from`: split on LF, reject lines shorter
than the minimum, re-slice to include the LF terminator and delegate to
`RequestLine::try_from`.  The outer `none` models a panic: either the
`&byte_stream[..=request_line.len()]` slice being out of bounds, or a panic
inside `RequestLine::try_from`. -/
def Request.try_from (byte_stream : List Nat) : Option (Except Error Request) :=
  let (request_line, _) := split byte_stream LF
  if request_line.length < RequestLine.min_len then
    some (.error .invalidRequest)
  else if request_line.length + 1 ≤ byte_stream.length then
    match RequestLine.try_from (byte_stream.take (request_line.length + 1)) with
    | some (.error e) => some (.error e)
    | some (.ok rl) => some (.ok ⟨rl, Headers.default, none⟩)
    | none => none
  else
    none

/-- Translated from `Request::uri`. -/
def Request.uri (self : Request) : Uri :=
  self.request_line.uri

/-- Translated from `Request::http_version`. -/
def Request.http_version (self : Request) : Version :=
  self.request_line.http_version

/-- The first space-delimited token of a request line, as produced by the
first `split` in `RequestLine::try_from` (the method token). -/
def methodToken (line : List Nat) : List Nat :=
  (split line SP).1

/-- The second space-delimited token of a request line, as produced by the
second `split` in `RequestLine::try_from` (the URI token). -/
def uriToken (line : List Nat) : List Nat :=
  (split (split line SP).2 SP).1

/-- The line-feed-delimited token that follows the first two space-delimited
tokens, after carriage-return stripping, as produced in
`RequestLine::try_from` (the version token). -/
def versionToken (line : List Nat) : List Nat :=
  RequestLine.remove_trailing_cr (split (split (split line SP).2 SP).2 LF).1

/- ### Helper lemmas -/

theorem firstIndexOf_of_not_mem {l : List Nat} {s : Nat} (h : s ∉ l) :
    firstIndexOf l s = none := by
  induction l with
  | nil => rfl
  | cons b rest ih =>
    simp only [List.mem_cons, not_or] at h
    simp [firstIndexOf, Ne.symm h.1, ih h.2]

theorem firstIndexOf_append {pre post : List Nat} {s : Nat} (h : s ∉ pre) :
    firstIndexOf (pre ++ s :: post) s = some pre.length := by
  induction pre with
  | nil => simp [firstIndexOf]
  | cons b rest ih =>
    simp only [List.mem_cons, not_or] at h
    simp [firstIndexOf, Ne.symm h.1, ih h.2]

theorem split_of_not_mem {l : List Nat} {s : Nat} (h : s ∉ l) :
    split l s = ([], l) := by
  simp [split, firstIndexOf_of_not_mem h]

theorem isPrefixOf_append_self (l t : List Nat) : l.isPrefixOf (l ++ t) = true := by
  induction l with
  | nil => simp [List.isPrefixOf]
  | cons a as ih => simp [List.isPrefixOf, ih]

theorem split_append {pre post : List Nat} {s : Nat} (h : s ∉ pre) :
    split (pre ++ s :: post) s = (pre, post) := by
  have htake : (pre ++ s :: post).take pre.length = pre := List.take_left pre (s :: post)
  have hdrop : (pre ++ s :: post).drop (pre.length + 1) = post := by
    have hassoc : pre ++ s :: post = (pre ++ [s]) ++ post := by simp
    have hlen : pre.length + 1 = (pre ++ [s]).length := by simp
    rw [hassoc, hlen, List.drop_left]
  have hstep : split (pre ++ s :: post) s =
      if pre.length + 1 < (pre ++ s :: post).length then
        ((pre ++ s :: post).take pre.length, (pre ++ s :: post).drop (pre.length + 1))
      else
        ((pre ++ s :: post).take pre.length, []) := by
    unfold split
    rw [firstIndexOf_append h]
  rw [hstep]
  by_cases hlt : pre.length + 1 < (pre ++ s :: post).length
  · rw [if_pos hlt, htake, hdrop]
  · rw [if_neg hlt, htake]
    have hlen2 : (pre ++ s :: post).length = pre.length + 1 + post.length := by
      simp [List.length_append]; omega
    have hpost : post = [] := List.length_eq_zero.mp (by omega)
    rw [hpost]

theorem exists_first_decomp {l : List Nat} {s : Nat} (h : s ∈ l) :
    ∃ pre post, l = pre ++ s :: post ∧ s ∉ pre := by
  induction l with
  | nil => cases h
  | cons b rest ih =>
    by_cases hb : b = s
    · exact ⟨[], rest, by rw [hb]; rfl, by simp⟩
    · have hrest : s ∈ rest := by
        rcases List.mem_cons.mp h with hEq | hMem
        · exact absurd hEq.symm hb
        · exact hMem
      rcases ih hrest with ⟨pre, post, hEq, hMem⟩
      exact ⟨b :: pre, post, by rw [List.cons_append, hEq],
        by simp only [List.mem_cons, not_or]; exact ⟨fun hsb => hb hsb.symm, hMem⟩⟩

theorem requestLine_try_from_total (line : List Nat) :
    ∃ r, RequestLine.try_from line = some r := by
  unfold RequestLine.try_from
  rcases h1 : split line SP with ⟨m, r1⟩
  cases hm : RequestLine.validate_method m with
  | error e => exact ⟨.error e, by simp [hm]⟩
  | ok u0 =>
    rcases h2 : split r1 SP with ⟨u, r2⟩
    cases hu : RequestLine.validate_uri u with
    | error e => exact ⟨.error e, by simp [hm, h2, hu]⟩
    | ok u1 =>
      rcases h3 : split r2 LF with ⟨v0, tail⟩
      cases hv : RequestLine.validate_version (RequestLine.remove_trailing_cr v0) with
      | error e => exact ⟨.error e, by simp [hm, h2, hu, h3, hv]⟩
      | ok u2 =>
        have hvok : RequestLine.remove_trailing_cr v0 = Version.raw .http10 ∨
            RequestLine.remove_trailing_cr v0 = Version.raw .http11 := by
          unfold RequestLine.validate_version at hv
          by_cases hc : RequestLine.remove_trailing_cr v0 ≠ Version.raw .http10 ∧
              RequestLine.remove_trailing_cr v0 ≠ Version.raw .http11
          · rw [if_pos hc] at hv; cases hv
          · rcases not_and_or.mp hc with hc1 | hc2
            · exact Or.inl (not_not.mp hc1)
            · exact Or.inr (not_not.mp hc2)
        have hne : Version.raw .http11 ≠ Version.raw .http10 := by decide
        rcases hvok with hv10 | hv11
        · refine ⟨.ok ⟨Method.get, ⟨u⟩, .http10⟩, ?_⟩
          simp only [hm, h2, hu, h3, hv]
          simp [Version.tryFrom, hv10]
        · refine ⟨.ok ⟨Method.get, ⟨u⟩, .http11⟩, ?_⟩
          simp only [hm, h2, hu, h3, hv]
          simp [Version.tryFrom, hv11, hne]

theorem try_from_eval (line : List Nat) :
    RequestLine.try_from line =
      if methodToken line ≠ Method.raw .get then
        some (.error (.invalidHttpMethod ("Unsupported HTTP method.")))
      else if uriToken line = [] then
        some (.error (.invalidUri ("Empty URI not allowed.")))
      else if isValidUtf8 (uriToken line) = false then
        some (.error (.invalidUri ("Cannot parse URI as UTF-8.")))
      else if versionToken line ≠ Version.raw .http10 ∧
          versionToken line ≠ Version.raw .http11 then
        some (.error (.invalidHttpVersion ("Unsupported HTTP version.")))
      else
        match Version.tryFrom (versionToken line) with
        | some v => some (.ok ⟨Method.get, ⟨uriToken line⟩, v⟩)
        | none => none := by
  unfold RequestLine.try_from
  rcases h1 : split line SP with ⟨m, r1⟩
  rcases h2 : split r1 SP with ⟨u, r2⟩
  rcases h3 : split r2 LF with ⟨v0, tl⟩
  have hmtok : methodToken line = m := by simp [methodToken, h1]
  have hutok : uriToken line = u := by simp [uriToken, h1, h2]
  have hvtok : versionToken line = RequestLine.remove_trailing_cr v0 := by
    simp [versionToken, h1, h2, h3]
  rw [hmtok, hutok, hvtok]
  by_cases hc1 : m ≠ Method.raw .get
  · rw [if_pos hc1]
    have hm : RequestLine.validate_method m =
        .error (.invalidHttpMethod ("Unsupported HTTP method.")) := by
      simp [RequestLine.validate_method, hc1]
    simp [h1, hm]
  · rw [if_neg hc1]
    have hm : RequestLine.validate_method m = .ok () := by
      simp [RequestLine.validate_method, hc1]
    by_cases hc2 : u = []
    · rw [if_pos hc2]
      have hu : RequestLine.validate_uri u =
          .error (.invalidUri ("Empty URI not allowed.")) := by
        simp [RequestLine.validate_uri, hc2]
      simp [h1, h2, hm, hu]
    · rw [if_neg hc2]
      have hul : u.length ≠ 0 := fun hc => hc2 (List.length_eq_zero.mp hc)
      by_cases hc3 : isValidUtf8 u = false
      · rw [if_pos hc3]
        have hu : RequestLine.validate_uri u =
            .error (.invalidUri ("Cannot parse URI as UTF-8.")) := by
          simp [RequestLine.validate_uri, hul, hc3]
        simp [h1, h2, hm, hu]
      · rw [if_neg hc3]
        have hc3t : isValidUtf8 u = true := by
          cases hval : isValidUtf8 u
          · exact absurd hval hc3
          · rfl
        have hu : RequestLine.validate_uri u = .ok () := by
          simp [RequestLine.validate_uri, hul, hc3t]
        by_cases hc4 : RequestLine.remove_trailing_cr v0 ≠ Version.raw .http10 ∧
            RequestLine.remove_trailing_cr v0 ≠ Version.raw .http11
        · rw [if_pos hc4]
          have hv : RequestLine.validate_version
              (RequestLine.remove_trailing_cr v0) =
              .error (.invalidHttpVersion ("Unsupported HTTP version.")) := by
            unfold RequestLine.validate_version
            rw [if_pos hc4]
          simp [h1, h2, h3, hm, hu, hv]
        · rw [if_neg hc4]
          have hv : RequestLine.validate_version
              (RequestLine.remove_trailing_cr v0) = .ok () := by
            unfold RequestLine.validate_version
            rw [if_neg hc4]
          simp [h1, h2, h3, hm, hu, hv]

theorem take_succ_append_cons (pre s : List Nat) (x : Nat) :
    (pre ++ x :: s).take (pre.length + 1) = pre ++ [x] := by
  have hassoc : pre ++ x :: s = (pre ++ [x]) ++ s := by simp
  have hlen : pre.length + 1 = (pre ++ [x]).length := by simp
  rw [hassoc, hlen, List.take_left]

theorem request_try_from_append (pre s : List Nat) (h : LF ∉ pre) :
    Request.try_from (pre ++ LF :: s) = Request.try_from (pre ++ [LF]) := by
  unfold Request.try_from
  have hnil : pre ++ [LF] = pre ++ LF :: ([] : List Nat) := rfl
  rw [hnil]
  simp only [split_append h]
  by_cases hlen : pre.length < RequestLine.min_len
  · rw [if_pos hlen, if_pos hlen]
  · rw [if_neg hlen, if_neg hlen]
    have hb1 : pre.length + 1 ≤ (pre ++ LF :: s).length := by
      simp only [List.length_append, List.length_cons]
      omega
    have hb2 : pre.length + 1 ≤ (pre ++ LF :: ([] : List Nat)).length := by
      simp only [List.length_append, List.length_cons]
      omega
    rw [if_pos hb1, if_pos hb2, take_succ_append_cons, take_succ_append_cons]

/- ### Claim theorems -/

/-- C1: the claim states that `Uri::get_abs_path` never panics, on every
input byte sequence including the empty one.  The code violates this and
contradicts its own doc comment (which promises an empty byte array for
empty/invalid input): on the empty token the relative-path branch evaluates
`self.bytes[0]`, an out-of-bounds index, i.e. a panic -- `none` in this
embedding.  This theorem evaluates the code at the failing input. -/
theorem C1_get_abs_path_panics_on_empty_input :
    Uri.get_abs_path ⟨[]⟩ = none := rfl

/-- C3 counterexample: the claim states that a token that does not start
with `http://` and is empty yields the empty result; on the empty token the
code instead panics (`none` in this embedding), not `some []`. -/
theorem C3_get_abs_path_empty_token_counterexample :
    Uri.get_abs_path ⟨[]⟩ ≠ some [] := by decide

/-- C3 (amended): full characterization of `Uri::get_abs_path`.  For a token
starting with `http://`: the bare prefix, a missing `/` after the prefix, or
an empty host yield the empty result, and otherwise the result is the suffix
starting at the first `/` after the host (inclusive), unmodified.  For a
token not starting with `http://`: a nonempty token returns empty when its
first byte is not `/` and itself when it is; on the empty token the code
panics (`none` in this embedding) instead of returning empty as the original
claim stated.  Byte 47 is ASCII `/`. -/
theorem C3_get_abs_path_characterization
    (bytes host rest tail : List Nat) (b : Nat) :
    (Uri.get_abs_path ⟨httpSchemeBytes⟩ = some []) ∧
    (bytes = httpSchemeBytes ++ rest → 47 ∉ rest →
      Uri.get_abs_path ⟨bytes⟩ = some []) ∧
    (bytes = httpSchemeBytes ++ 47 :: rest →
      Uri.get_abs_path ⟨bytes⟩ = some []) ∧
    (bytes = httpSchemeBytes ++ host ++ 47 :: rest → host ≠ [] → 47 ∉ host →
      Uri.get_abs_path ⟨bytes⟩ = some (47 :: rest)) ∧
    (Uri.get_abs_path ⟨[]⟩ = none) ∧
    (bytes = b :: tail → httpSchemeBytes.isPrefixOf bytes = false → b ≠ 47 →
      Uri.get_abs_path ⟨bytes⟩ = some []) ∧
    (bytes = 47 :: tail → Uri.get_abs_path ⟨bytes⟩ = some bytes) := by
  refine ⟨by decide, ?_, ?_, ?_, rfl, ?_, ?_⟩
  · intro hEq hmem
    subst hEq
    by_cases hrest : rest = []
    · subst hrest
      simp only [List.append_nil]
      decide
    · have hpref : httpSchemeBytes.isPrefixOf (httpSchemeBytes ++ rest) = true :=
        isPrefixOf_append_self _ _
      have hrl : rest.length ≠ 0 := fun hc => hrest (List.length_eq_zero.mp hc)
      have hlen : (httpSchemeBytes ++ rest).length ≠ httpSchemeBytes.length := by
        rw [List.length_append]; omega
      have hdrop : (httpSchemeBytes ++ rest).drop httpSchemeBytes.length = rest :=
        List.drop_left _ _
      simp [Uri.get_abs_path, hpref, hlen, hdrop, split_of_not_mem hmem]
  · intro hEq
    subst hEq
    have hpref :
        httpSchemeBytes.isPrefixOf (httpSchemeBytes ++ 47 :: rest) = true :=
      isPrefixOf_append_self _ _
    have hlen :
        (httpSchemeBytes ++ 47 :: rest).length ≠ httpSchemeBytes.length := by
      rw [List.length_append]; simp
    have hdrop :
        (httpSchemeBytes ++ 47 :: rest).drop httpSchemeBytes.length = 47 :: rest :=
      List.drop_left _ _
    have hsplit : split (47 :: rest) 47 = ([], rest) := by
      have h0 : (47 : Nat) ∉ ([] : List Nat) := by simp
      have := @split_append [] rest 47 h0
      simpa using this
    simp [Uri.get_abs_path, hpref, hlen, hdrop, hsplit]
  · intro hEq hhost hmem
    subst hEq
    have hpref : httpSchemeBytes.isPrefixOf
        (httpSchemeBytes ++ host ++ 47 :: rest) = true := by
      rw [List.append_assoc]
      exact isPrefixOf_append_self _ _
    have hhl : host.length ≠ 0 := fun hc => hhost (List.length_eq_zero.mp hc)
    have hlen : (httpSchemeBytes ++ host ++ 47 :: rest).length ≠
        httpSchemeBytes.length := by
      rw [List.append_assoc, List.length_append, List.length_append]
      simp
    have hdrop : (httpSchemeBytes ++ host ++ 47 :: rest).drop
        httpSchemeBytes.length = host ++ 47 :: rest := by
      rw [List.append_assoc]
      exact List.drop_left _ _
    have hsplit : split (host ++ 47 :: rest) 47 = (host, rest) :=
      split_append hmem
    have hdrop2 : (httpSchemeBytes ++ host ++ 47 :: rest).drop
        (httpSchemeBytes.length + host.length) = 47 :: rest := by
      have h1 : httpSchemeBytes.length + host.length =
          (httpSchemeBytes ++ host).length := (List.length_append _ _).symm
      rw [h1]
      exact List.drop_left _ _
    simp [Uri.get_abs_path, hpref, hlen, hdrop, hsplit, hhl, hdrop2]
  · intro hEq hpref hb
    subst hEq
    simp [Uri.get_abs_path, hpref, hb]
  · intro hEq
    subst hEq
    have hpref : httpSchemeBytes.isPrefixOf (47 :: tail) = false := rfl
    simp [Uri.get_abs_path, hpref]

/-- Witness for C3 at a concrete input: the token `"http://localhost/home"`
(as bytes) reduces to the path `"/home"`. -/
theorem C3_get_abs_path_characterization_witness :
    Uri.get_abs_path ⟨[104, 116, 116, 112, 58, 47, 47, 108, 111, 99, 97,
      108, 104, 111, 115, 116, 47, 104, 111, 109, 101]⟩ =
      some [47, 104, 111, 109, 101] :=
  (C3_get_abs_path_characterization
    [104, 116, 116, 112, 58, 47, 47, 108, 111, 99, 97, 108, 104, 111, 115,
      116, 47, 104, 111, 109, 101]
    [108, 111, 99, 97, 108, 104, 111, 115, 116]
    [104, 111, 109, 101] [] 0).2.2.2.1 (by decide) (by decide) (by decide)

/-- C2: `split` returns the pair of the bytes strictly before and strictly
after the first occurrence of the separator (the separator excluded from
both); when the first occurrence is at the last index the "after" half is
empty; when the separator never occurs the result is the empty "before" and
the entire original input as "after". -/
theorem C2_split_first_occurrence (bytes : List Nat) (separator : Nat) :
    (separator ∈ bytes →
      ∃ before after, split bytes separator = (before, after) ∧
        bytes = before ++ separator :: after ∧ separator ∉ before) ∧
    (∀ before, bytes = before ++ [separator] → separator ∉ before →
      split bytes separator = (before, [])) ∧
    (separator ∉ bytes → split bytes separator = ([], bytes)) := by
  refine ⟨?_, ?_, ?_⟩
  · intro hmem
    rcases exists_first_decomp hmem with ⟨pre, post, hEq, hpre⟩
    exact ⟨pre, post, by rw [hEq, split_append hpre], hEq, hpre⟩
  · intro before hEq hpre
    rw [hEq]
    exact split_append hpre
  · exact split_of_not_mem

/-- Witness for C2 at a concrete input: splitting `[104, 47]` on the
separator 47, whose first occurrence is at the last index. -/
theorem C2_split_first_occurrence_witness :
    split [104, 47] 47 = ([104], []) :=
  (C2_split_first_occurrence [104, 47] 47).2.1 [104] (by decide) (by decide)

/-- C7: `remove_trailing_cr` removes exactly one trailing carriage-return
byte exactly when the token ends in CR and has more than one byte; in every
other case (including the single-byte CR token) it returns the token
unchanged. -/
theorem C7_remove_trailing_cr (v xs : List Nat) :
    (v = xs ++ [CR] → xs ≠ [] → RequestLine.remove_trailing_cr v = xs) ∧
    (v.getLast? ≠ some CR → RequestLine.remove_trailing_cr v = v) ∧
    (v.length ≤ 1 → RequestLine.remove_trailing_cr v = v) ∧
    (RequestLine.remove_trailing_cr [CR] = [CR]) := by
  refine ⟨?_, ?_, ?_, by decide⟩
  · intro hEq hxs
    subst hEq
    unfold RequestLine.remove_trailing_cr
    have hlen : (xs ++ [CR]).length = xs.length + 1 := by simp
    have hlast : (xs ++ [CR]).getD ((xs ++ [CR]).length - 1) 0 = CR := by
      rw [hlen]
      simp [List.getD_eq_getElem?_getD, List.getElem?_concat_length]
    have hgt : (xs ++ [CR]).length > 1 := by
      rw [hlen]
      have : xs.length ≠ 0 := fun hc => hxs (List.length_eq_zero.mp hc)
      omega
    rw [if_pos ⟨hgt, hlast⟩, hlen]
    simp [List.take_left]
  · intro hlast
    unfold RequestLine.remove_trailing_cr
    by_cases hc : v.length > 1 ∧ v.getD (v.length - 1) 0 = CR
    · exfalso
      apply hlast
      rcases hc with ⟨hgt, hD⟩
      have hne : v ≠ [] := by
        intro hv; rw [hv] at hgt; simp at hgt
      have hlt : v.length - 1 < v.length := by
        have : v.length ≠ 0 := fun hc => hne (List.length_eq_zero.mp hc)
        omega
      rw [List.getLast?_eq_getElem?, List.getElem?_eq_getElem hlt]
      rw [List.getD_eq_getElem?_getD, List.getElem?_eq_getElem hlt,
        Option.getD_some] at hD
      exact congrArg some hD
    · rw [if_neg hc]
  · intro hle
    unfold RequestLine.remove_trailing_cr
    rw [if_neg]
    intro hc
    omega

/-- Witness for C7 at a concrete input: the token `"HTTP/1.0" ++ CR` (bytes)
loses exactly its trailing carriage return. -/
theorem C7_remove_trailing_cr_witness :
    RequestLine.remove_trailing_cr [72, 84, 84, 80, 47, 49, 46, 48, 13] =
      [72, 84, 84, 80, 47, 49, 46, 48] :=
  (C7_remove_trailing_cr [72, 84, 84, 80, 47, 49, 46, 48, 13]
    [72, 84, 84, 80, 47, 49, 46, 48]).1 (by decide) (by decide)

/-- C4: `RequestLine::try_from` fails fast in pipeline order: the
"unsupported method" error arises exactly when the first space-delimited
token differs from the canonical `GET` bytes; given a valid method, the
"invalid URI" error arises exactly when the second space-delimited token is
empty or not valid UTF-8; given a valid method and URI, the "unsupported
version" error arises exactly when the line-feed-delimited token, after
carriage-return stripping, is neither canonical version representation; and
parsing succeeds exactly when all three checks pass, building the aggregate
from the three validated tokens. -/
theorem C4_request_line_pipeline (line : List Nat) :
    ((∃ s, RequestLine.try_from line =
        some (.error (.invalidHttpMethod s))) ↔
      methodToken line ≠ Method.raw .get) ∧
    (methodToken line = Method.raw .get →
      ((∃ s, RequestLine.try_from line = some (.error (.invalidUri s))) ↔
        (uriToken line = [] ∨ isValidUtf8 (uriToken line) = false))) ∧
    (methodToken line = Method.raw .get → uriToken line ≠ [] →
      isValidUtf8 (uriToken line) = true →
      ((∃ s, RequestLine.try_from line =
          some (.error (.invalidHttpVersion s))) ↔
        (versionToken line ≠ Version.raw .http10 ∧
          versionToken line ≠ Version.raw .http11))) ∧
    ((∃ rl, RequestLine.try_from line = some (.ok rl)) ↔
      (methodToken line = Method.raw .get ∧ uriToken line ≠ [] ∧
        isValidUtf8 (uriToken line) = true ∧
        (versionToken line = Version.raw .http10 ∨
          versionToken line = Version.raw .http11))) ∧
    (∀ rl, RequestLine.try_from line = some (.ok rl) →
      rl.method = Method.get ∧ rl.uri = ⟨uriToken line⟩ ∧
      rl.http_version.raw = versionToken line) := by
  have heval := try_from_eval line
  have hne : Version.raw .http11 ≠ Version.raw .http10 := by decide
  by_cases hc1 : methodToken line = Method.raw .get
  · rw [if_neg (by simp [hc1])] at heval
    by_cases hc2 : uriToken line = []
    · rw [if_pos hc2] at heval
      simp [heval, hc1, hc2]
    · rw [if_neg hc2] at heval
      by_cases hc3 : isValidUtf8 (uriToken line) = true
      · rw [if_neg (by simp [hc3])] at heval
        by_cases hc4 : versionToken line = Version.raw .http10
        · rw [if_neg (by simp [hc4])] at heval
          rw [hc4] at heval
          simp only [Version.tryFrom, if_pos rfl] at heval
          simp [heval, hc1, hc2, hc3, hc4, Version.raw]
        · by_cases hc5 : versionToken line = Version.raw .http11
          · rw [if_neg (by simp [hc5])] at heval
            rw [hc5] at heval
            simp only [Version.tryFrom, if_neg hne, if_pos rfl] at heval
            simp [heval, hc1, hc2, hc3, hc4, hc5, Version.raw]
          · rw [if_pos ⟨hc4, hc5⟩] at heval
            simp [heval, hc1, hc2, hc3, hc4, hc5]
      · rw [Bool.not_eq_true] at hc3
        rw [if_pos hc3] at heval
        simp [heval, hc1, hc2, hc3]
  · rw [if_pos hc1] at heval
    simp [heval, hc1]

/-- Witness for C4 at a concrete input: the line `"GET / HTTP/1.0\r\n"`
(as bytes) passes all three validation steps. -/
theorem C4_request_line_pipeline_witness :
    ∃ rl, RequestLine.try_from
        [71, 69, 84, 32, 47, 32, 72, 84, 84, 80, 47, 49, 46, 48, 13, 10] =
      some (.ok rl) :=
  (C4_request_line_pipeline
    [71, 69, 84, 32, 47, 32, 72, 84, 84, 80, 47, 49, 46, 48, 13, 10]).2.2.2.1.mpr
    ⟨by decide, by decide, by decide, Or.inl (by decide)⟩

/-- C5: the minimum request-line length equals the length of the canonical
`GET` token plus the length of the canonical `HTTP/1.0` token plus one byte
for the URI plus three separator bytes, i.e. 15, and `Request::try_from`
rejects any candidate request line (the bytes before the first line feed)
shorter than that with the generic `InvalidRequest` error, before any token
parsing is attempted. -/
theorem C5_min_len_guard (buf : List Nat) :
    RequestLine.min_len =
      (Method.raw .get).length + (Version.raw .http10).length + 1 + 3 ∧
    RequestLine.min_len = 15 ∧
    ((split buf LF).1.length < RequestLine.min_len →
      Request.try_from buf = some (.error .invalidRequest)) := by
  refine ⟨by decide, by decide, ?_⟩
  intro h
  unfold Request.try_from
  rcases h1 : split buf LF with ⟨ln, tl⟩
  rw [h1] at h
  simp only [h1]
  simp [h]

/-- Witness for C5 at a concrete input: the buffer containing only a line
feed has an empty candidate line, shorter than the minimum. -/
theorem C5_min_len_guard_witness :
    Request.try_from [10] = some (.error .invalidRequest) :=
  (C5_min_len_guard [10]).2.2 (by decide)

/-- C6: the result of `Request::try_from` depends only on the bytes up to
and including the first line feed: two buffers agreeing on that prefix parse
to equal results; a valid request line followed by arbitrary header-looking
text still succeeds; and every successful parse carries the empty default
headers and an absent (`none`) body. -/
theorem C6_prefix_determines_result (pre s1 s2 buf : List Nat) (r : Request) :
    (LF ∉ pre →
      Request.try_from (pre ++ LF :: s1) = Request.try_from (pre ++ LF :: s2)) ∧
    (Request.try_from buf = some (.ok r) →
      r.headers = Headers.default ∧ r.body = none) ∧
    (∃ rq, Request.try_from
        ([71, 69, 84, 32, 47, 32, 72, 84, 84, 80, 47, 49, 46, 48, 13, 10] ++ s1) =
      some (.ok rq)) := by
  refine ⟨?_, ?_, ?_⟩
  · intro hpre
    rw [request_try_from_append pre s1 hpre, request_try_from_append pre s2 hpre]
  · intro hok
    unfold Request.try_from at hok
    rcases h1 : split buf LF with ⟨ln, tl⟩
    simp only [h1] at hok
    by_cases hlen : ln.length < RequestLine.min_len
    · rw [if_pos hlen] at hok
      simp at hok
    · rw [if_neg hlen] at hok
      by_cases hb : ln.length + 1 ≤ buf.length
      · rw [if_pos hb] at hok
        rcases requestLine_try_from_total (buf.take (ln.length + 1)) with ⟨res, hres⟩
        rw [hres] at hok
        cases res with
        | error e => simp at hok
        | ok rl =>
          simp only [Option.some.injEq, Except.ok.injEq] at hok
          rw [← hok]
          exact ⟨rfl, rfl⟩
      · rw [if_neg hb] at hok
        simp at hok
  · show ∃ rq, Request.try_from
        ([71, 69, 84, 32, 47, 32, 72, 84, 84, 80, 47, 49, 46, 48, 13] ++
          LF :: s1) = some (.ok rq)
    rw [request_try_from_append _ s1 (by decide)]
    exact ⟨⟨⟨Method.get, ⟨[47]⟩, Version.http10⟩, Headers.default, none⟩, rfl⟩

/-- Witness for C6 at concrete inputs: a valid request line followed by two
different header-looking tails parses identically, and the successful parse
has default headers and no body. -/
theorem C6_prefix_determines_result_witness :
    Request.try_from
        ([71, 69, 84, 32, 47, 32, 72, 84, 84, 80, 47, 49, 46, 48, 13] ++
          LF :: [72, 111, 115, 116]) =
      Request.try_from
        ([71, 69, 84, 32, 47, 32, 72, 84, 84, 80, 47, 49, 46, 48, 13] ++
          LF :: [88]) :=
  (C6_prefix_determines_result
    [71, 69, 84, 32, 47, 32, 72, 84, 84, 80, 47, 49, 46, 48, 13]
    [72, 111, 115, 116] [88] [] ⟨⟨Method.get, ⟨[47]⟩, Version.http10⟩,
      Headers.default, none⟩).1 (by decide)

/-- C8: parsing is deterministic: `Request::try_from` is a pure function of
the input buffer, so two invocations on the same bytes yield equal results
-- both succeed with equal structured values or both fail with the same
error; no hidden mutable state affects the outcome. -/
theorem C8_parse_deterministic (buf : List Nat)
    (r1 r2 : Option (Except Error Request)) :
    Request.try_from buf = Request.try_from buf ∧
    (Request.try_from buf = r1 → Request.try_from buf = r2 → r1 = r2) :=
  ⟨rfl, fun h1 h2 => h1.symm.trans h2⟩

/-- Witness for C8 at a concrete input: two parses of the lone line-feed
buffer produce the same error value. -/
theorem C8_parse_deterministic_witness :
    some (Except.error Error.invalidRequest) = Request.try_from [10] :=
  (C8_parse_deterministic [10] (some (.error .invalidRequest))
    (Request.try_from [10])).2 rfl rfl

/-- C9: a buffer containing no line-feed byte at all is rejected with the
`InvalidRequest` error, whatever its length or content: the not-found
convention of `split` makes the candidate request line empty, and the
minimum-length guard rejects it. -/
theorem C9_no_lf_invalid_request (buf : List Nat) (h : LF ∉ buf) :
    Request.try_from buf = some (.error .invalidRequest) := by
  simp [Request.try_from, split_of_not_mem h, RequestLine.min_len, Method.raw,
    Version.raw]

/-- Witness for C9 at a concrete input: the buffer `"GET"` has no line feed
and is rejected. -/
theorem C9_no_lf_invalid_request_witness :
    Request.try_from [71, 69, 84] = some (.error .invalidRequest) :=
  C9_no_lf_invalid_request [71, 69, 84] (by decide)

/-- C10: `Request::try_from` is total: on every input buffer it returns a
parsed request or an error and never panics -- the re-slice that extends the
candidate line by its line-feed terminator is always in bounds, and the
version `unwrap` is guarded by the preceding validation. -/
theorem C10_request_try_from_total (buf : List Nat) :
    ∃ r, Request.try_from buf = some r := by
  by_cases hmem : LF ∈ buf
  · rcases exists_first_decomp hmem with ⟨pre, post, hEq, hpre⟩
    subst hEq
    unfold Request.try_from
    simp only [split_append hpre]
    by_cases hlen : pre.length < RequestLine.min_len
    · exact ⟨.error .invalidRequest, by rw [if_pos hlen]⟩
    · rw [if_neg hlen]
      have hbound : pre.length + 1 ≤ (pre ++ LF :: post).length := by
        simp [List.length_append]
      rw [if_pos hbound]
      rcases requestLine_try_from_total ((pre ++ LF :: post).take (pre.length + 1))
        with ⟨r, hr⟩
      rw [hr]
      cases r with
      | error e => exact ⟨.error e, rfl⟩
      | ok rl => exact ⟨.ok ⟨rl, Headers.default, none⟩, rfl⟩
  · exact ⟨.error .invalidRequest,
      by simp [Request.try_from, split_of_not_mem hmem, RequestLine.min_len,
        Method.raw, Version.raw]⟩

end MicroHttp
